import Mathlib

set_option maxRecDepth 8000
set_option maxHeartbeats 1000000

/-!
Verification development for the receipt-renaming batch tool
(`comprovantefinanceiro.py`).  The Python source is embedded shallowly:

* `extrairDoTexto` is the body of `extrair_info_comprovante` applied to the
  text pdfplumber extracts from the first page (lines 23-73 of the source);
  the regular expressions of the source are embedded as explicit leftmost-match
  scanners with the exact lazy/greedy backtracking behaviour of Python `re`.
* `limpar_nome_arquivo` is the sanitizer (lines 80-88).
* `processar_zip` is the batch orchestrator (lines 91-175); the external
  collaborators (pdfplumber, the zip module, the filesystem) appear as data:
  a `PdfFile` carries the text extraction outcome, an abstract content
  identity for its bytes, and whether its rename succeeds.
-/

namespace ComprovanteFinanceiro

/-- Whitespace as Python's `\s`, `str.split()` and `str.strip()` see it,
restricted to the ASCII range (the Unicode additions never occur here):
space, tab, newline, carriage return, vertical tab, form feed. -/
def isPySpace (c : Char) : Bool :=
  c == ' ' || c == '\t' || c == '\n' || c == '\r' || c == Char.ofNat 11 || c == Char.ofNat 12

/-- Decimal digit, Python regex `\d` (ASCII range). -/
def isDigito (c : Char) : Bool := c.isDigit

/-- Python `needle in hay` on strings: contiguous substring occurrence. -/
def containsSub (needle : List Char) : List Char → Bool
  | [] => needle.isPrefixOf []
  | c :: cs => needle.isPrefixOf (c :: cs) || containsSub needle cs

/-- Python `needle in hay` at the `String` level. -/
def pyIn (needle hay : String) : Bool := containsSub needle.data hay.data

/-- Leftmost-match regex search (Python `re.search`): try the whole pattern at
every start position, left to right, including the position at the end. -/
def reSearch {α : Type} (tryAt : List Char → Option α) : List Char → Option α
  | [] => tryAt []
  | c :: cs => tryAt (c :: cs) <|> reSearch tryAt cs

/-- Match a literal piece of the pattern at the current position and return the
rest of the text. -/
def matchLit (lit : List Char) (t : List Char) : Option (List Char) :=
  if lit.isPrefixOf t then some (t.drop lit.length) else none

/-- Match `\d{2}/\d{2}/\d{4}` at the current position, returning the ten
matched characters (regex group 1 of the date patterns). -/
def matchData10 : List Char → Option (List Char)
  | a :: b :: s1 :: c :: d :: s2 :: e :: f :: g :: h :: _ =>
    if isDigito a && isDigito b && s1 == '/' && isDigito c && isDigito d && s2 == '/'
        && isDigito e && isDigito f && isDigito g && isDigito h then
      some [a, b, s1, c, d, s2, e, f, g, h]
    else none
  | _ => none

/-- Group 1 of `re.search(label + r'\s*(\d{2}/\d{2}/\d{4})', texto)`.
The greedy `\s*` can be taken as maximal munch: `\s` and `\d` are disjoint, so
backtracking into the whitespace can never rescue a failed date, and a failure
moves the search to the next start position exactly as in Python. -/
def searchLabelData (label : String) (t : List Char) : Option (List Char) :=
  reSearch (fun u => (matchLit label.data u).bind
    (fun r => matchData10 (r.dropWhile isPySpace))) t

/-- `(.+?)(?:\n|$)` without DOTALL at the current position: the shortest
non-empty run of non-newline characters followed by a newline or the end.
It succeeds exactly when the position holds a character other than a newline,
capturing up to (excluding) the next newline. -/
def capToEol : List Char → Option (List Char)
  | [] => none
  | c :: cs => if c == '\n' then none else some (c :: cs.takeWhile (fun d => d != '\n'))

/-- Backtracking of a greedy `\s*` in front of a capture: with `k` whitespace
characters available, try consuming all of them first, then one fewer, and so
on down to none, returning the first capture that succeeds. -/
def wsBacktrack (cap : List Char → Option (List Char)) : Nat → List Char → Option (List Char)
  | 0, t => cap t
  | k + 1, t => cap (t.drop (k + 1)) <|> wsBacktrack cap k t

/-- `\s*` followed by a capture, with the greedy backtracking of Python `re`. -/
def matchWsCapture (cap : List Char → Option (List Char)) (t : List Char) : Option (List Char) :=
  wsBacktrack cap (t.takeWhile isPySpace).length t

/-- Group 1 of `re.search(label + r'\s*(.+?)(?:\n|$)', texto)`: the single-line
captures after `Nome do beneficiário:` (Boleto) and `Favorecido:` (TED). -/
def searchLabelLinha (label : String) (t : List Char) : Option (List Char) :=
  reSearch (fun u => (matchLit label.data u).bind (matchWsCapture capToEol)) t

/-- Does the terminator `(?:\n|CPF)` of the PIX pattern match here? -/
def pixTerm (t : List Char) : Bool :=
  ['\n'].isPrefixOf t || "CPF".data.isPrefixOf t

/-- `(.+?)` under DOTALL followed by `(?:\n|CPF)`: grow the capture lazily one
character at a time (newlines included) until the terminator matches. -/
def capDotLazy : List Char → Option (List Char)
  | [] => none
  | c :: cs => if pixTerm cs then some [c] else (capDotLazy cs).map (fun w => c :: w)

/-- Group 1 of
`re.search(r'Informações do Destinatário.*?Nome:\s*(.+?)(?:\n|CPF)', texto, re.DOTALL)`:
the anchor is found leftmost, the lazy `.*?` reaches the nearest following
`Nome:` first (crossing newlines, DOTALL), and the capture runs to the next
newline or `CPF`. -/
def searchPixDestinatario (t : List Char) : Option (List Char) :=
  reSearch (fun u => (matchLit "Informações do Destinatário".data u).bind
    (fun r => reSearch (fun v => (matchLit "Nome:".data v).bind
      (matchWsCapture capDotLazy)) r)) t

/-- Python `str.strip()`. -/
def pyStrip (cs : List Char) : List Char :=
  ((cs.dropWhile isPySpace).reverse.dropWhile isPySpace).reverse

/-- `data_str.replace('/', '-')`. -/
def slashParaHifen (cs : List Char) : List Char :=
  cs.map (fun c => if c == '/' then '-' else c)

/-- The classification-and-extraction cascade of `extrair_info_comprovante`
applied to the extracted first-page text (source lines 23-73).  Returns
`(data, destinatario, tipo_comprovante)`. -/
def extrairDoTexto (texto : String) : Option String × Option String × Option String :=
  let t := texto.data
  if pyIn "Boleto" texto || pyIn "Data de débito:" texto then
    ((searchLabelData "Data de débito:" t).map (fun d => (⟨slashParaHifen d⟩ : String)),
     (searchLabelLinha "Nome do beneficiário:" t).map (fun n => (⟨pyStrip n⟩ : String)),
     some "Boleto")
  else if pyIn "TED" texto && pyIn "Transferência" texto then
    ((searchLabelData "Data/Hora:" t).map (fun d => (⟨slashParaHifen d⟩ : String)),
     (searchLabelLinha "Favorecido:" t).map (fun n => (⟨pyStrip n⟩ : String)),
     some "TED")
  else if pyIn "PIX" texto then
    ((searchLabelData "Data/Hora:" t).map (fun d => (⟨slashParaHifen d⟩ : String)),
     (searchPixDestinatario t).map (fun n => (⟨pyStrip n⟩ : String)),
     some "PIX")
  else (none, none, none)

/-- The characters `re.sub(r'[<>:"/\\|?*]', '', nome)` removes. -/
def caracteresProibidos : List Char := ['<', '>', ':', '"', '/', '\\', '|', '?', '*']

/-- Membership in the removed character class. -/
def isProibido (c : Char) : Bool := caracteresProibidos.contains c

/-- `' '.join(words)` for the non-empty chunks Python's `split` produces. -/
def joinWords : List (List Char) → List Char
  | [] => []
  | [w] => w
  | w :: ws => w ++ ' ' :: joinWords ws

/-- Fuelled worker for Python `str.split()`: skip whitespace, take a maximal
non-whitespace run as a word, repeat.  The fuel only serves to make the
recursion structural; `pyWords` supplies enough for it never to run out. -/
def pyWordsF : Nat → List Char → List (List Char)
  | 0, _ => []
  | _ + 1, [] => []
  | fuel + 1, c :: cs =>
    if isPySpace c then pyWordsF fuel cs
    else (c :: cs.takeWhile (fun d => !isPySpace d))
      :: pyWordsF fuel (cs.dropWhile (fun d => !isPySpace d))

/-- Python `nome_limpo.split()`: the maximal non-whitespace runs. -/
def pyWords (cs : List Char) : List (List Char) := pyWordsF cs.length cs

/-- `limpar_nome_arquivo` (source lines 80-88): drop the reserved filename
characters, then `' '.join(nome_limpo.split())`. -/
def limpar_nome_arquivo (nome : String) : String :=
  ⟨joinWords (pyWords (nome.data.filter (fun c => !isProibido c)))⟩

/-! ## Batch orchestrator (`processar_zip`, source lines 91-175)

The zip/pdf/filesystem collaborators enter as data.  A `PdfFile` is one entry
`temp_path.rglob('*.pdf')` finds, in iteration order: its path inside the
temporary directory, its basename (`pdf_file.name`), the text pdfplumber
extracts from its first page (`none` when opening, page access or
`extract_text()` fails or yields `None` — every such case lands in the
`except` arm of `extrair_info_comprovante`), an abstract content identity for
its bytes, and whether `Path.rename` succeeds for it (`renameOk = false`
models the rename raising, with `renameErr` the exception text). -/

structure PdfFile where
  caminho : String
  nome : String
  texto : Option String
  conteudo : Nat
  renameOk : Bool
  renameErr : String
deriving DecidableEq

/-- One row of the `resultados` table (the dict built at source lines 135-160). -/
structure Registro where
  original : String
  novo_nome : String
  status : String
  tipo : String
  data : String
  destinatario : String
deriving DecidableEq

/-- `extrair_info_comprovante` at the file level: pdfplumber's outcome is the
`texto` field; a failed extraction returns `(None, None, None)` from the
`except` arm (source lines 75-77). -/
def extrair_info_comprovante (f : PdfFile) : Option String × Option String × Option String :=
  match f.texto with
  | some t => extrairDoTexto t
  | none => (none, none, none)

/-- Python truthiness of a possibly-`None` string (`if data and destinatario`). -/
def strTruthy : Option String → Bool
  | some s => s != ""
  | none => false

/-- Python `x or default` for a possibly-`None` string. -/
def pyOr (x : Option String) (d : String) : String :=
  match x with
  | some s => if s == "" then d else s
  | none => d

/-- The renaming guard `if data and destinatario:` (source line 123). -/
def condRenomear (f : PdfFile) : Bool :=
  strTruthy (extrair_info_comprovante f).1 && strTruthy (extrair_info_comprovante f).2.1

/-- `novo_nome = f"{data} - {destinatario_limpo}.pdf"` (source line 126). -/
def novoNomeDe (f : PdfFile) : String :=
  ((extrair_info_comprovante f).1.getD "") ++ " - "
    ++ limpar_nome_arquivo ((extrair_info_comprovante f).2.1.getD "") ++ ".pdf"

/-- The result row appended for a file, covering the three arms of source
lines 123-160 (success, rename error, missing fields). -/
def registroDe (f : PdfFile) : Registro :=
  let e := extrair_info_comprovante f
  if condRenomear f then
    if f.renameOk then
      ⟨f.nome, novoNomeDe f, "✅ Sucesso", pyOr e.2.2 "Desconhecido", e.1.getD "",
        limpar_nome_arquivo (e.2.1.getD "")⟩
    else
      ⟨f.nome, "-", "❌ Erro ao renomear: " ++ f.renameErr, pyOr e.2.2 "Desconhecido",
        e.1.getD "", limpar_nome_arquivo (e.2.1.getD "")⟩
  else
    ⟨f.nome, "-", "⚠️ Informações não encontradas", pyOr e.2.2 "Desconhecido",
      pyOr e.1 "N/A", pyOr e.2.1 "N/A"⟩

/-- The temporary directory as a finite map from path to content identity. -/
abbrev Dir := List (String × Nat)

/-- `pdf_file.rename(novo_caminho)` with POSIX semantics: an existing file at
the destination is silently replaced.  A missing source cannot occur for the
inputs the batch produces (every source path is present until its own turn),
so that case is a no-op here. -/
def fsRename (fs : Dir) (orig dest : String) : Dir :=
  match fs.find? (fun e => e.1 == orig) with
  | some e => (dest, e.2) :: fs.filter (fun e2 => e2.1 != orig && e2.1 != dest)
  | none => fs

/-- The loop state of `processar_zip`: the directory, `arquivos_renomeados`
and `resultados`. -/
structure EstadoLote where
  fs : Dir
  renomeados : List String
  resultados : List Registro

/-- One iteration of the `for idx, pdf_file in enumerate(pdf_files)` loop
(source lines 117-160). -/
def processarArquivo (st : EstadoLote) (f : PdfFile) : EstadoLote :=
  if condRenomear f then
    if f.renameOk then
      { fs := fsRename st.fs f.caminho (novoNomeDe f)
        renomeados := st.renomeados ++ [novoNomeDe f]
        resultados := st.resultados ++ [registroDe f] }
    else
      { st with resultados := st.resultados ++ [registroDe f] }
  else
    { st with resultados := st.resultados ++ [registroDe f] }

/-- `processar_zip` (source lines 91-175).  The argument is the list of PDFs
the recursive search finds in the unpacked archive, in iteration order.  The
first component is the output archive as the ordered list of entries
`zip_out.write(arquivo, arquivo.name)` produces — entry name and entry
contents, the contents looked up in the directory after all renames (a `none`
content marks a path missing at packing time, where the Python code would
raise); it is `none` exactly when the function returns `None` early.  The
entry name is `arquivo.name`, which equals `novo_nome` because the sanitizer
removes both path separators.  The second component is `resultados`. -/
def processar_zip (files : List PdfFile) :
    Option (List (String × Option Nat)) × List Registro :=
  if files.isEmpty then (none, [])
  else
    let ini : EstadoLote := ⟨files.map (fun f => (f.caminho, f.conteudo)), [], []⟩
    let fin := files.foldl processarArquivo ini
    (some (fin.renomeados.map
        (fun nm => (nm, (fin.fs.find? (fun e => e.1 == nm)).map (fun e => e.2)))),
     fin.resultados)

example : extrairDoTexto "Boleto\nData de débito: 22/12/2025\nNome do beneficiário: A S LTDA\nx"
    = (some "22-12-2025", some "A S LTDA", some "Boleto") := by decide

example : extrairDoTexto "Comprovante TED Transferência\nData/Hora: 12/06/2025 09:00\nFavorecido: MOVIDA SA\nx"
    = (some "12-06-2025", some "MOVIDA SA", some "TED") := by decide

example : limpar_nome_arquivo "  a<b>:  c/d  " = "ab cd" := by decide

example : limpar_nome_arquivo "///" = "" := by decide

example :
    (processar_zip
      [⟨"a.pdf", "a.pdf", some "Boleto\nData de débito: 19/12/2025\nNome do beneficiário: Jane Doe\nx", 1, true, ""⟩,
       ⟨"b.pdf", "b.pdf", some "Boleto\nData de débito: 19/12/2025\nNome do beneficiário: Jane Doe\nx", 2, true, ""⟩]).1
    = some [("19-12-2025 - Jane Doe.pdf", some 2), ("19-12-2025 - Jane Doe.pdf", some 2)] := by
  decide

/-! ## Structure of the batch loop -/

theorem processarArquivo_resultados (st : EstadoLote) (f : PdfFile) :
    (processarArquivo st f).resultados = st.resultados ++ [registroDe f] := by
  unfold processarArquivo
  split <;> [skip; rfl]
  split <;> rfl

theorem processarArquivo_renomeados (st : EstadoLote) (f : PdfFile) :
    (processarArquivo st f).renomeados =
      st.renomeados ++ (if condRenomear f && f.renameOk then [novoNomeDe f] else []) := by
  unfold processarArquivo
  by_cases hc : condRenomear f
  · by_cases hr : f.renameOk <;> simp [hc, hr]
  · simp [hc]

theorem processarArquivo_fs (st : EstadoLote) (f : PdfFile) :
    (processarArquivo st f).fs =
      (if condRenomear f && f.renameOk then fsRename st.fs f.caminho (novoNomeDe f) else st.fs) := by
  unfold processarArquivo
  by_cases hc : condRenomear f
  · by_cases hr : f.renameOk <;> simp [hc, hr]
  · simp [hc]

theorem foldl_resultados (files : List PdfFile) (st : EstadoLote) :
    (files.foldl processarArquivo st).resultados = st.resultados ++ files.map registroDe := by
  induction files generalizing st with
  | nil => simp
  | cons f fs ih =>
    simp only [List.foldl_cons, List.map_cons]
    rw [ih, processarArquivo_resultados]
    simp

theorem foldl_renomeados (files : List PdfFile) (st : EstadoLote) :
    (files.foldl processarArquivo st).renomeados =
      st.renomeados ++ (files.filter (fun f => condRenomear f && f.renameOk)).map novoNomeDe := by
  induction files generalizing st with
  | nil => simp
  | cons f fs ih =>
    simp only [List.foldl_cons]
    rw [ih, processarArquivo_renomeados]
    by_cases hc : (condRenomear f && f.renameOk) = true
    · simp [List.filter_cons, hc]
    · simp [List.filter_cons, hc]

/-! ## Properties of the sanitizer -/

theorem takeWhile_append_all {p : Char → Bool} {w l : List Char} (h : ∀ c ∈ w, p c = true) :
    (w ++ l).takeWhile p = w ++ l.takeWhile p := by
  induction w with
  | nil => simp
  | cons c cs ih =>
    have hc : p c = true := h c (List.mem_cons_self c cs)
    simp [List.takeWhile_cons, hc, ih (fun d hd => h d (List.mem_cons_of_mem c hd))]

theorem dropWhile_append_all {p : Char → Bool} {w l : List Char} (h : ∀ c ∈ w, p c = true) :
    (w ++ l).dropWhile p = l.dropWhile p := by
  induction w with
  | nil => simp
  | cons c cs ih =>
    have hc : p c = true := h c (List.mem_cons_self c cs)
    simp [List.dropWhile_cons, hc, ih (fun d hd => h d (List.mem_cons_of_mem c hd))]

theorem pyWordsF_nil : ∀ fuel, pyWordsF fuel [] = []
  | 0 => rfl
  | _ + 1 => rfl

theorem pyWordsF_congr (f1 : Nat) : ∀ (f2 : Nat) (cs : List Char), cs.length ≤ f1 →
    cs.length ≤ f2 → pyWordsF f1 cs = pyWordsF f2 cs := by
  induction f1 with
  | zero =>
    intro f2 cs h1 _
    have : cs = [] := List.length_eq_zero.mp (Nat.le_zero.mp h1)
    subst this
    simp [pyWordsF_nil]
  | succ f ih =>
    intro f2 cs h1 h2
    cases cs with
    | nil => simp [pyWordsF_nil]
    | cons c cs =>
      cases f2 with
      | zero => exact absurd h2 (by simp)
      | succ g =>
        simp only [pyWordsF]
        cases hc : isPySpace c with
        | true =>
          simp only [if_true]
          exact ih g cs (Nat.le_of_succ_le_succ h1) (Nat.le_of_succ_le_succ h2)
        | false =>
          simp only [Bool.false_eq_true, if_false, List.cons.injEq, true_and]
          have hlen : (cs.dropWhile (fun d => !isPySpace d)).length ≤ cs.length :=
            (List.dropWhile_sublist _).length_le
          exact ih g _ (le_trans hlen (Nat.le_of_succ_le_succ h1))
            (le_trans hlen (Nat.le_of_succ_le_succ h2))

theorem pyWords_cons_espaco {c : Char} {cs : List Char} (h : isPySpace c = true) :
    pyWords (c :: cs) = pyWords cs := by
  simp [pyWords, pyWordsF, h]

theorem pyWords_cons_palavra {c : Char} {cs : List Char} (h : isPySpace c = false) :
    pyWords (c :: cs) =
      (c :: cs.takeWhile (fun d => !isPySpace d))
        :: pyWords (cs.dropWhile (fun d => !isPySpace d)) := by
  simp only [pyWords, List.length_cons, pyWordsF, h, Bool.false_eq_true, if_false,
    List.cons.injEq, true_and]
  exact pyWordsF_congr cs.length _ _ (List.dropWhile_sublist _).length_le (le_refl _)

theorem pyWordsF_boas (fuel : Nat) : ∀ (cs : List Char), ∀ w ∈ pyWordsF fuel cs,
    w ≠ [] ∧ ∀ c ∈ w, isPySpace c = false ∧ c ∈ cs := by
  induction fuel with
  | zero => intro cs w hw; simp [pyWordsF] at hw
  | succ f ih =>
    intro cs w hw
    cases cs with
    | nil => simp [pyWordsF] at hw
    | cons c cs =>
      cases hc : isPySpace c with
      | true =>
        simp only [pyWordsF, hc, if_true] at hw
        obtain ⟨hne, hall⟩ := ih cs w hw
        exact ⟨hne, fun d hd => ⟨(hall d hd).1, List.mem_cons_of_mem c (hall d hd).2⟩⟩
      | false =>
        simp only [pyWordsF, hc, Bool.false_eq_true, if_false, List.mem_cons] at hw
        rcases hw with rfl | hw
        · refine ⟨by simp, ?_⟩
          intro d hd
          rcases List.mem_cons.mp hd with rfl | hd
          · exact ⟨hc, List.mem_cons_self _ _⟩
          · have h1 := List.mem_takeWhile_imp hd
            have h2 : d ∈ cs := (List.takeWhile_sublist _).subset hd
            exact ⟨by simpa using h1, List.mem_cons_of_mem c h2⟩
        · obtain ⟨hne, hall⟩ := ih _ w hw
          refine ⟨hne, fun d hd => ⟨(hall d hd).1, ?_⟩⟩
          exact List.mem_cons_of_mem c ((List.dropWhile_sublist _).subset (hall d hd).2)

theorem pyWords_boas (cs : List Char) : ∀ w ∈ pyWords cs,
    w ≠ [] ∧ ∀ c ∈ w, isPySpace c = false ∧ c ∈ cs :=
  pyWordsF_boas cs.length cs

theorem joinWords_cons (w v : List Char) (ws : List (List Char)) :
    joinWords (w :: v :: ws) = w ++ ' ' :: joinWords (v :: ws) := rfl

theorem mem_joinWords (ws : List (List Char)) (c : Char) (hc : c ∈ joinWords ws) :
    c = ' ' ∨ ∃ w ∈ ws, c ∈ w := by
  induction ws with
  | nil => simp [joinWords] at hc
  | cons w ws ih =>
    cases ws with
    | nil => exact Or.inr ⟨w, by simp, hc⟩
    | cons v ws' =>
      rw [joinWords_cons] at hc
      rcases List.mem_append.mp hc with h | h
      · exact Or.inr ⟨w, by simp, h⟩
      · rcases List.mem_cons.mp h with rfl | h
        · exact Or.inl rfl
        · rcases ih h with h' | ⟨u, hu, hcu⟩
          · exact Or.inl h'
          · exact Or.inr ⟨u, List.mem_cons_of_mem _ hu, hcu⟩

theorem joinWords_head? (w : List Char) (ws : List (List Char)) (hne : w ≠ []) :
    (joinWords (w :: ws)).head? = w.head? := by
  cases ws with
  | nil => rfl
  | cons v ws' =>
    rw [joinWords_cons]
    cases w with
    | nil => exact absurd rfl hne
    | cons c w' => rfl

theorem joinWords_ne_nil (w : List Char) (ws : List (List Char)) (hne : w ≠ []) :
    joinWords (w :: ws) ≠ [] := by
  cases ws with
  | nil => exact hne
  | cons v ws' =>
    rw [joinWords_cons]
    cases w with
    | nil => exact absurd rfl hne
    | cons c w' => simp

theorem joinWords_getLast? (ws : List (List Char)) (hws : ∀ u ∈ ws, u ≠ []) (c : Char)
    (hc : (joinWords ws).getLast? = some c) : ∃ u ∈ ws, c ∈ u := by
  induction ws with
  | nil => simp [joinWords] at hc
  | cons w ws ih =>
    cases ws with
    | nil => exact ⟨w, by simp, List.mem_of_getLast?_eq_some hc⟩
    | cons v ws' =>
      rw [joinWords_cons, List.getLast?_append] at hc
      have hjw : joinWords (v :: ws') ≠ [] :=
        joinWords_ne_nil v ws' (hws v (by simp))
      obtain ⟨d, hd⟩ := Option.isSome_iff_exists.mp (List.getLast?_isSome.mpr hjw)
      have hcons : (' ' :: joinWords (v :: ws')).getLast? = some d := by
        have : (' ' :: joinWords (v :: ws')) = [' '] ++ joinWords (v :: ws') := rfl
        rw [this, List.getLast?_append, hd]
        rfl
      rw [hcons] at hc
      simp only [Option.or_some] at hc
      obtain rfl : d = c := by injection hc
      obtain ⟨u, hu, hcu⟩ := ih (fun u hu => hws u (List.mem_cons_of_mem _ hu)) hd
      exact ⟨u, List.mem_cons_of_mem _ hu, hcu⟩

theorem chain'_nonspace {l : List Char} (h : ∀ a ∈ l, isPySpace a = false) :
    List.Chain' (fun a b => isPySpace a = false ∨ isPySpace b = false) l := by
  induction l with
  | nil => exact List.chain'_nil
  | cons a l ih =>
    rw [List.chain'_cons']
    exact ⟨fun y _ => Or.inl (h a (by simp)),
      ih (fun b hb => h b (List.mem_cons_of_mem a hb))⟩

theorem chain'_joinWords (ws : List (List Char))
    (hws : ∀ w ∈ ws, w ≠ [] ∧ ∀ c ∈ w, isPySpace c = false) :
    List.Chain' (fun a b => isPySpace a = false ∨ isPySpace b = false) (joinWords ws) := by
  induction ws with
  | nil => exact List.chain'_nil
  | cons w ws ih =>
    cases ws with
    | nil => exact chain'_nonspace (hws w (by simp)).2
    | cons v ws' =>
      rw [joinWords_cons, List.chain'_append]
      refine ⟨chain'_nonspace (hws w (by simp)).2, ?_, ?_⟩
      · rw [List.chain'_cons']
        refine ⟨?_, ih (fun u hu => hws u (List.mem_cons_of_mem _ hu))⟩
        intro y hy
        rw [joinWords_head? v ws' (hws v (by simp)).1] at hy
        right
        exact (hws v (by simp)).2 y (List.mem_of_mem_head? hy)
      · intro x hx y hy
        left
        exact (hws w (by simp)).2 x (List.mem_of_getLast?_eq_some hx)

theorem takeWhile_all {p : Char → Bool} {w : List Char} (h : ∀ c ∈ w, p c = true) :
    w.takeWhile p = w := by
  induction w with
  | nil => rfl
  | cons c cs ih =>
    simp [List.takeWhile_cons, h c (List.mem_cons_self c cs),
      ih (fun d hd => h d (List.mem_cons_of_mem c hd))]

theorem dropWhile_all {p : Char → Bool} {w : List Char} (h : ∀ c ∈ w, p c = true) :
    w.dropWhile p = [] := by
  induction w with
  | nil => rfl
  | cons c cs ih =>
    simp [List.dropWhile_cons, h c (List.mem_cons_self c cs),
      ih (fun d hd => h d (List.mem_cons_of_mem c hd))]

theorem pyWords_palavra_unica {w : List Char} (hne : w ≠ [])
    (hns : ∀ c ∈ w, isPySpace c = false) : pyWords w = [w] := by
  cases w with
  | nil => exact absurd rfl hne
  | cons c w' =>
    rw [pyWords_cons_palavra (hns c (by simp))]
    have hall : ∀ d ∈ w', (fun d => !isPySpace d) d = true := fun d hd => by
      simp [hns d (List.mem_cons_of_mem c hd)]
    rw [takeWhile_all hall, dropWhile_all hall]
    rfl

theorem pyWords_palavra_espaco {w l : List Char} (hne : w ≠ [])
    (hns : ∀ c ∈ w, isPySpace c = false) :
    pyWords (w ++ ' ' :: l) = w :: pyWords l := by
  cases w with
  | nil => exact absurd rfl hne
  | cons c w' =>
    rw [List.cons_append, pyWords_cons_palavra (hns c (by simp))]
    have hall : ∀ d ∈ w', (fun d => !isPySpace d) d = true := fun d hd => by
      simp [hns d (List.mem_cons_of_mem c hd)]
    rw [takeWhile_append_all hall, dropWhile_append_all hall]
    have hsp : (!isPySpace ' ') = false := by decide
    rw [List.takeWhile_cons, List.dropWhile_cons]
    simp only [hsp, Bool.false_eq_true, if_false, List.append_nil]
    rw [pyWords_cons_espaco (by decide)]

theorem pyWords_joinWords (ws : List (List Char))
    (hws : ∀ w ∈ ws, w ≠ [] ∧ ∀ c ∈ w, isPySpace c = false) :
    pyWords (joinWords ws) = ws := by
  induction ws with
  | nil => rfl
  | cons w ws ih =>
    cases ws with
    | nil => exact pyWords_palavra_unica (hws w (by simp)).1 (hws w (by simp)).2
    | cons v ws' =>
      rw [joinWords_cons,
        pyWords_palavra_espaco (hws w (by simp)).1 (hws w (by simp)).2,
        ih (fun u hu => hws u (List.mem_cons_of_mem _ hu))]

/-- C7: `limpar_nome_arquivo` removes every occurrence of the reserved
characters (the result contains none of them), every whitespace character that
remains in the result is a plain space, no two adjacent result characters are
both whitespace (runs are collapsed to a single space), and the result neither
starts nor ends with whitespace (trimmed). -/
theorem limpar_nome_arquivo_spec (s : String) :
    (∀ c ∈ (limpar_nome_arquivo s).data, isProibido c = false) ∧
    (∀ c ∈ (limpar_nome_arquivo s).data, isPySpace c = true → c = ' ') ∧
    List.Chain' (fun a b => isPySpace a = false ∨ isPySpace b = false)
      (limpar_nome_arquivo s).data ∧
    (∀ c, (limpar_nome_arquivo s).data.head? = some c → isPySpace c = false) ∧
    (∀ c, (limpar_nome_arquivo s).data.getLast? = some c → isPySpace c = false) := by
  have hws := pyWords_boas (s.data.filter (fun c => !isProibido c))
  set l := s.data.filter (fun c => !isProibido c) with hl
  have hdata : (limpar_nome_arquivo s).data = joinWords (pyWords l) := rfl
  refine ⟨?_, ?_, ?_, ?_, ?_⟩
  · intro c hc
    rw [hdata] at hc
    rcases mem_joinWords _ c hc with rfl | ⟨w, hw, hcw⟩
    · decide
    · have hcl : c ∈ l := ((hws w hw).2 c hcw).2
      simpa using (List.mem_filter.mp hcl).2
  · intro c hc hsp
    rw [hdata] at hc
    rcases mem_joinWords _ c hc with rfl | ⟨w, hw, hcw⟩
    · rfl
    · rw [((hws w hw).2 c hcw).1] at hsp
      exact absurd hsp (by simp)
  · rw [hdata]
    exact chain'_joinWords _
      (fun w hw => ⟨(hws w hw).1, fun c hc => ((hws w hw).2 c hc).1⟩)
  · intro c hc
    rw [hdata] at hc
    cases hpw : pyWords l with
    | nil => rw [hpw] at hc; simp [joinWords] at hc
    | cons w ws =>
      have hwmem : w ∈ pyWords l := by rw [hpw]; exact List.mem_cons_self w ws
      rw [hpw, joinWords_head? w ws (hws w hwmem).1] at hc
      exact ((hws w hwmem).2 c (List.mem_of_mem_head? hc)).1
  · intro c hc
    rw [hdata] at hc
    obtain ⟨u, hu, hcu⟩ := joinWords_getLast? (pyWords l)
      (fun u hu => (hws u hu).1) c hc
    exact ((hws u hu).2 c hcu).1

/-- Witness for C7 at a concrete input. -/
theorem limpar_nome_arquivo_spec_witness : isProibido 'J' = false :=
  (limpar_nome_arquivo_spec "Jane/Doe").1 'J' (by decide)

/-- C8: the sanitizer is idempotent. -/
theorem limpar_nome_arquivo_idem (s : String) :
    limpar_nome_arquivo (limpar_nome_arquivo s) = limpar_nome_arquivo s := by
  have hws := pyWords_boas (s.data.filter (fun c => !isProibido c))
  set l := s.data.filter (fun c => !isProibido c) with hl
  have hdata : (limpar_nome_arquivo s).data = joinWords (pyWords l) := rfl
  have hok : ∀ c ∈ joinWords (pyWords l), (!isProibido c) = true := by
    intro c hc
    rcases mem_joinWords _ c hc with rfl | ⟨w, hw, hcw⟩
    · decide
    · exact (List.mem_filter.mp (((hws w hw).2 c hcw).2)).2
  show (⟨joinWords (pyWords
      ((limpar_nome_arquivo s).data.filter (fun c => !isProibido c)))⟩ : String)
    = limpar_nome_arquivo s
  rw [hdata, List.filter_eq_self.mpr hok,
    pyWords_joinWords _ (fun w hw => ⟨(hws w hw).1, fun c hc => ((hws w hw).2 c hc).1⟩)]
  rfl

/-! ## Claims about the classifier -/

/-- C2: any text containing the literal substring "Boleto" or the literal
substring "Data de débito:" classifies as type Boleto — never PIX and never
TED — because the cascade is evaluated top to bottom and the Boleto test comes
first. -/
theorem boleto_prioridade (t : String)
    (h : pyIn "Boleto" t = true ∨ pyIn "Data de débito:" t = true) :
    (extrairDoTexto t).2.2 = some "Boleto" ∧
    (extrairDoTexto t).2.2 ≠ some "PIX" ∧ (extrairDoTexto t).2.2 ≠ some "TED" := by
  have hcond : (pyIn "Boleto" t || pyIn "Data de débito:" t) = true := by
    rcases h with h | h <;> simp [h]
  refine ⟨?_, ?_, ?_⟩ <;> simp [extrairDoTexto, hcond]

/-- Witness for C2: a text holding the PIX and TED markers as well still
classifies as Boleto. -/
theorem boleto_prioridade_witness :
    (extrairDoTexto "Boleto PIX TED Transferência").2.2 = some "Boleto" :=
  (boleto_prioridade "Boleto PIX TED Transferência" (Or.inl (by decide))).1

/-- C9: if extraction of a page text returns a present date or a present
payee, the document type is present as well — one of Boleto, TED, PIX — since
both fields are only ever assigned inside a matched type branch. -/
theorem tipo_presente (t : String)
    (h : (extrairDoTexto t).1 ≠ none ∨ (extrairDoTexto t).2.1 ≠ none) :
    (extrairDoTexto t).2.2 = some "Boleto" ∨ (extrairDoTexto t).2.2 = some "TED" ∨
      (extrairDoTexto t).2.2 = some "PIX" := by
  cases h1 : (pyIn "Boleto" t || pyIn "Data de débito:" t) with
  | true => exact Or.inl (by simp [extrairDoTexto, h1])
  | false =>
    cases h2 : (pyIn "TED" t && pyIn "Transferência" t) with
    | true => exact Or.inr (Or.inl (by simp [extrairDoTexto, h1, h2]))
    | false =>
      cases h3 : pyIn "PIX" t with
      | true => exact Or.inr (Or.inr (by simp [extrairDoTexto, h1, h2, h3]))
      | false =>
        exfalso
        rcases h with h | h <;> simp [extrairDoTexto, h1, h2, h3] at h

/-- Witness for C9 at a concrete Boleto text. -/
theorem tipo_presente_witness :
    (extrairDoTexto "Boleto\nData de débito: 22/12/2025\nNome do beneficiário: A S LTDA\nx").2.2
        = some "Boleto" ∨
    (extrairDoTexto "Boleto\nData de débito: 22/12/2025\nNome do beneficiário: A S LTDA\nx").2.2
        = some "TED" ∨
    (extrairDoTexto "Boleto\nData de débito: 22/12/2025\nNome do beneficiário: A S LTDA\nx").2.2
        = some "PIX" :=
  tipo_presente _ (Or.inl (by decide))

/-- The concrete PIX receipt text of the C6 scenario: it contains "PIX",
"Data/Hora: 19/12/2025 14:32" and an "Informações do Destinatário" block in
which the "Nome:" label sits on a later line and is followed by a newline and
a CPF line; it contains none of the Boleto or TED markers. -/
def textoPixExemplo : String :=
  "Comprovante PIX\nData/Hora: 19/12/2025 14:32\nInformações do Destinatário\nNome: Francivaldo de Sousa Figueira\nCPF: 123.456.789-00"

/-- C6: on the scenario text the extraction returns date `19-12-2025` (the
`14:32` time part is discarded), payee `Francivaldo de Sousa Figueira`
(captured across lines from the "Informações do Destinatário" anchor up to
the newline before "CPF"), and type PIX. -/
theorem pix_cenario :
    extrairDoTexto textoPixExemplo
      = (some "19-12-2025", some "Francivaldo de Sousa Figueira", some "PIX") := by
  decide

/-! ## Claims about the batch orchestrator -/

theorem processar_zip_resultados (files : List PdfFile) (h : files.isEmpty = false) :
    (processar_zip files).2 = files.map registroDe := by
  simp only [processar_zip, h, Bool.false_eq_true, if_false]
  rw [foldl_resultados]
  rfl

/-- C4: the orchestrator returns an absent output archive exactly when the
archive holds no PDFs, and then the record list is empty; with at least one
PDF the archive is present and the record list non-empty. -/
theorem processar_zip_vazio (files : List PdfFile) :
    ((processar_zip files).1 = none ↔ files = []) ∧
    (files = [] → (processar_zip files).2 = []) ∧
    (files ≠ [] →
      (∃ es, (processar_zip files).1 = some es) ∧ (processar_zip files).2 ≠ []) := by
  cases files with
  | nil =>
    exact ⟨by simp [processar_zip], fun _ => by simp [processar_zip],
      fun h => absurd rfl h⟩
  | cons f fs =>
    have h1 : ∃ es, (processar_zip (f :: fs)).1 = some es := by
      simp [processar_zip]
    have h2 : (processar_zip (f :: fs)).2 = (f :: fs).map registroDe :=
      processar_zip_resultados _ (by simp)
    refine ⟨?_, fun h => absurd h (List.cons_ne_nil f fs), fun _ => ⟨h1, ?_⟩⟩
    · obtain ⟨es, hes⟩ := h1
      simp [hes]
    · rw [h2]; simp

/-- Witness for C4: the empty batch and a one-file batch. -/
theorem processar_zip_vazio_witness :
    (processar_zip []).2 = [] ∧
    (processar_zip [⟨"a.pdf", "a.pdf", none, 1, true, ""⟩]).2 ≠ [] :=
  ⟨(processar_zip_vazio []).2.1 rfl,
   ((processar_zip_vazio [⟨"a.pdf", "a.pdf", none, 1, true, ""⟩]).2.2 (by simp)).2⟩

/-- C5: a file whose page-text extraction fails yields absent date, payee and
type; exactly one record (the missing-fields row with the N/A markers) is
produced for it, and the records of all files before and after it are the
unchanged per-file records. -/
theorem falha_extracao_isolada (l1 l2 : List PdfFile) (f : PdfFile)
    (hf : f.texto = none) :
    extrair_info_comprovante f = (none, none, none) ∧
    (processar_zip (l1 ++ f :: l2)).2
      = l1.map registroDe ++ registroDe f :: l2.map registroDe ∧
    registroDe f = ⟨f.nome, "-", "⚠️ Informações não encontradas",
      "Desconhecido", "N/A", "N/A"⟩ := by
  have he : extrair_info_comprovante f = (none, none, none) := by
    simp [extrair_info_comprovante, hf]
  have hc : condRenomear f = false := by simp [condRenomear, he, strTruthy]
  refine ⟨he, ?_, ?_⟩
  · rw [processar_zip_resultados _ (by simp)]
    simp
  · simp [registroDe, he, hc, pyOr]

/-- Witness for C5: a single unreadable file. -/
theorem falha_extracao_isolada_witness :
    extrair_info_comprovante ⟨"c.pdf", "c.pdf", none, 7, true, ""⟩
      = (none, none, none) ∧
    (processar_zip ([] ++ (⟨"c.pdf", "c.pdf", none, 7, true, ""⟩ : PdfFile) :: [])).2
      = List.map registroDe []
        ++ registroDe ⟨"c.pdf", "c.pdf", none, 7, true, ""⟩ :: List.map registroDe [] ∧
    registroDe ⟨"c.pdf", "c.pdf", none, 7, true, ""⟩
      = ⟨"c.pdf", "-", "⚠️ Informações não encontradas", "Desconhecido", "N/A", "N/A"⟩ :=
  falha_extracao_isolada [] [] ⟨"c.pdf", "c.pdf", none, 7, true, ""⟩ rfl

theorem mem_arquivo_saida (files : List PdfFile) (f : PdfFile) (hf : f ∈ files)
    (hc : condRenomear f = true) (hok : f.renameOk = true) :
    ∃ conteudo, (novoNomeDe f, conteudo) ∈ (processar_zip files).1.getD [] := by
  have hne : files.isEmpty = false := by
    cases files with
    | nil => cases hf
    | cons g gs => simp
  simp only [processar_zip, hne, Bool.false_eq_true, if_false, Option.getD_some]
  refine ⟨_, List.mem_map_of_mem _ ?_⟩
  rw [foldl_renomeados]
  apply List.mem_append_right
  apply List.mem_map_of_mem
  exact List.mem_filter.mpr ⟨hf, by simp [hc, hok]⟩

/-- C10: a file whose extracted payee is non-empty but sanitizes to the empty
string is still renamed: the target name is `"{date} - .pdf"`, the record has
success status with the empty string as its payee field, and an entry under
the new name is packed into the output archive. -/
theorem destinatario_sanitizado_vazio (l1 l2 : List PdfFile) (f : PdfFile)
    (d n : String) (tp : Option String)
    (he : extrair_info_comprovante f = (some d, some n, tp))
    (hd : d ≠ "") (hn : n ≠ "") (hlimpo : limpar_nome_arquivo n = "")
    (hok : f.renameOk = true) :
    condRenomear f = true ∧
    novoNomeDe f = d ++ " - .pdf" ∧
    registroDe f = ⟨f.nome, d ++ " - .pdf", "✅ Sucesso", pyOr tp "Desconhecido", d, ""⟩ ∧
    ∃ conteudo, (d ++ " - .pdf", conteudo) ∈ (processar_zip (l1 ++ f :: l2)).1.getD [] := by
  have hc : condRenomear f = true := by
    simp [condRenomear, he, strTruthy, hd, hn]
  have hnm : novoNomeDe f = d ++ " - .pdf" := by
    simp only [novoNomeDe, he, Option.getD_some, hlimpo]
    rw [String.append_empty, String.append_assoc]
    congr 1
  have hreg : registroDe f
      = ⟨f.nome, d ++ " - .pdf", "✅ Sucesso", pyOr tp "Desconhecido", d, ""⟩ := by
    simp only [registroDe, he, hc, hok, if_true, hnm]
    simp [hlimpo]
  refine ⟨hc, hnm, hreg, ?_⟩
  rw [← hnm]
  exact mem_arquivo_saida (l1 ++ f :: l2) f (by simp) hc hok

/-- Witness for C10: a Boleto receipt whose beneficiário line reads `///`, a
payee that sanitizes to the empty string. -/
theorem destinatario_sanitizado_vazio_witness :
    condRenomear ⟨"a.pdf", "a.pdf",
        some "Boleto\nData de débito: 19/12/2025\nNome do beneficiário: ///\nx", 3, true, ""⟩
      = true ∧
    novoNomeDe ⟨"a.pdf", "a.pdf",
        some "Boleto\nData de débito: 19/12/2025\nNome do beneficiário: ///\nx", 3, true, ""⟩
      = "19-12-2025" ++ " - .pdf" ∧
    registroDe ⟨"a.pdf", "a.pdf",
        some "Boleto\nData de débito: 19/12/2025\nNome do beneficiário: ///\nx", 3, true, ""⟩
      = ⟨"a.pdf", "19-12-2025" ++ " - .pdf", "✅ Sucesso",
          pyOr (some "Boleto") "Desconhecido", "19-12-2025", ""⟩ ∧
    ∃ conteudo, ("19-12-2025" ++ " - .pdf", conteudo) ∈
      (processar_zip ([] ++ (⟨"a.pdf", "a.pdf",
        some "Boleto\nData de débito: 19/12/2025\nNome do beneficiário: ///\nx", 3, true, ""⟩
          : PdfFile) :: [])).1.getD [] :=
  destinatario_sanitizado_vazio [] [] _ "19-12-2025" "///" (some "Boleto")
    (by decide) (by decide) (by decide) (by decide) rfl

theorem passo_invariante (f g : PdfFile) (st : EstadoLote)
    (hg : condRenomear g = true → g.renameOk = true → g.caminho ≠ f.caminho)
    (hinv : ∀ pc ∈ st.fs, pc.2 = f.conteudo → pc.1 = f.caminho) :
    ∀ pc ∈ (processarArquivo st g).fs, pc.2 = f.conteudo → pc.1 = f.caminho := by
  rw [processarArquivo_fs]
  by_cases hcg : (condRenomear g && g.renameOk) = true
  · simp only [hcg, if_true]
    intro pc hpc hval
    unfold fsRename at hpc
    cases hfind : st.fs.find? (fun e => e.1 == g.caminho) with
    | none =>
      rw [hfind] at hpc
      exact hinv pc hpc hval
    | some e =>
      rw [hfind] at hpc
      rcases List.mem_cons.mp hpc with rfl | hmem
      · exfalso
        have hee : e ∈ st.fs := List.mem_of_find?_eq_some hfind
        have he1 : e.1 = g.caminho := by simpa using List.find?_some hfind
        have hgc := Bool.and_eq_true_iff.mp hcg
        have : e.1 = f.caminho := hinv e hee hval
        rw [he1] at this
        exact hg hgc.1 hgc.2 this
      · exact hinv pc (List.mem_of_mem_filter hmem) hval
  · simp only [hcg, if_false]
    exact hinv

theorem foldl_invariante (f : PdfFile) (files : List PdfFile) (st : EstadoLote)
    (hgs : ∀ g ∈ files, condRenomear g = true → g.renameOk = true →
      g.caminho ≠ f.caminho)
    (hinv : ∀ pc ∈ st.fs, pc.2 = f.conteudo → pc.1 = f.caminho) :
    ∀ pc ∈ (files.foldl processarArquivo st).fs, pc.2 = f.conteudo →
      pc.1 = f.caminho := by
  induction files generalizing st with
  | nil => exact hinv
  | cons g gs ih =>
    exact ih _ (fun g' hg' => hgs g' (List.mem_cons_of_mem g hg'))
      (passo_invariante f g st (hgs g (List.mem_cons_self g gs)) hinv)

/-- C3: a file whose extraction yields no date or no payee is never renamed
(every archive entry stems from another, successfully renamed file) and never
appears in the output archive (no entry carries its contents); its record is
the missing-fields row with the placeholder name, and every absent field is
reported as `N/A`.  The distinctness hypotheses say that the other files live
at other paths with other contents and none of them is renamed onto this
file's path. -/
theorem campos_ausentes (l1 l2 : List PdfFile) (f : PdfFile)
    (hmiss : (extrair_info_comprovante f).1 = none ∨
      (extrair_info_comprovante f).2.1 = none)
    (hpath : ∀ g ∈ l1 ++ l2, g.caminho ≠ f.caminho)
    (hcont : ∀ g ∈ l1 ++ l2, g.conteudo ≠ f.conteudo)
    (htarget : ∀ g ∈ l1 ++ l2, condRenomear g = true → g.renameOk = true →
      novoNomeDe g ≠ f.caminho) :
    condRenomear f = false ∧
    (registroDe f).novo_nome = "-" ∧
    (registroDe f).status = "⚠️ Informações não encontradas" ∧
    ((extrair_info_comprovante f).1 = none → (registroDe f).data = "N/A") ∧
    ((extrair_info_comprovante f).2.1 = none → (registroDe f).destinatario = "N/A") ∧
    (processar_zip (l1 ++ f :: l2)).2
      = l1.map registroDe ++ registroDe f :: l2.map registroDe ∧
    ∀ e ∈ (processar_zip (l1 ++ f :: l2)).1.getD [],
      (∃ g ∈ l1 ++ l2, condRenomear g = true ∧ g.renameOk = true ∧
        e.1 = novoNomeDe g) ∧
      e.2 ≠ some f.conteudo := by
  have hcf : condRenomear f = false := by
    rcases hmiss with h | h <;> simp [condRenomear, h, strTruthy]
  have hmem_f : ∀ g, g ∈ l1 ++ f :: l2 → g = f ∨ g ∈ l1 ++ l2 := by
    intro g hg
    rcases List.mem_append.mp hg with h | h
    · exact Or.inr (List.mem_append_left l2 h)
    · rcases List.mem_cons.mp h with rfl | h
      · exact Or.inl rfl
      · exact Or.inr (List.mem_append_right l1 h)
  refine ⟨hcf, ?_, ?_, ?_, ?_, ?_, ?_⟩
  · simp [registroDe, hcf]
  · simp [registroDe, hcf]
  · intro h; simp [registroDe, hcf, h, pyOr]
  · intro h; simp [registroDe, hcf, h, pyOr]
  · rw [processar_zip_resultados _ (by simp)]
    simp
  · have hne : (l1 ++ f :: l2).isEmpty = false := by simp
    set files := l1 ++ f :: l2 with hfiles
    set ini : EstadoLote := ⟨files.map (fun g => (g.caminho, g.conteudo)), [], []⟩
      with hini
    set fin := files.foldl processarArquivo ini with hfin
    have hz : (processar_zip files).1.getD []
        = fin.renomeados.map
            (fun nm => (nm, (fin.fs.find? (fun e => e.1 == nm)).map (fun e => e.2))) := by
      simp only [processar_zip, hne, Bool.false_eq_true, if_false, Option.getD_some]
    have hinv0 : ∀ pc ∈ ini.fs, pc.2 = f.conteudo → pc.1 = f.caminho := by
      intro pc hpc hval
      rw [hini] at hpc
      obtain ⟨g, hg, rfl⟩ := List.mem_map.mp hpc
      rcases hmem_f g hg with rfl | hg'
      · rfl
      · exact absurd hval (hcont g hg')
    have hinv : ∀ pc ∈ fin.fs, pc.2 = f.conteudo → pc.1 = f.caminho := by
      rw [hfin]
      refine foldl_invariante f files ini ?_ hinv0
      intro g hg hcg hokg
      rcases hmem_f g hg with rfl | hg'
      · rw [hcf] at hcg; cases hcg
      · exact hpath g hg'
    intro e he
    rw [hz] at he
    obtain ⟨nm, hnm, rfl⟩ := List.mem_map.mp he
    have hren : fin.renomeados
        = (files.filter (fun g => condRenomear g && g.renameOk)).map novoNomeDe := by
      rw [hfin, foldl_renomeados]
      rfl
    rw [hren] at hnm
    obtain ⟨g, hgfil, rfl⟩ := List.mem_map.mp hnm
    have hgprops := List.mem_filter.mp hgfil
    have hgand := Bool.and_eq_true_iff.mp hgprops.2
    have hg' : g ∈ l1 ++ l2 := by
      rcases hmem_f g hgprops.1 with rfl | h
      · rw [hcf] at hgand; cases hgand.1
      · exact h
    refine ⟨⟨g, hg', hgand.1, hgand.2, rfl⟩, ?_⟩
    intro hcontra
    cases hfind : fin.fs.find? (fun e2 => e2.1 == novoNomeDe g) with
    | none => rw [hfind] at hcontra; cases hcontra
    | some pc =>
      rw [hfind] at hcontra
      have hval : pc.2 = f.conteudo := by simpa using hcontra
      have hpc1 : pc.1 = novoNomeDe g := by simpa using List.find?_some hfind
      have := hinv pc (List.mem_of_find?_eq_some hfind) hval
      rw [hpc1] at this
      exact htarget g hg' hgand.1 hgand.2 this

/-- Witness for C3: one well-formed Boleto file followed by a file without
markers. -/
theorem campos_ausentes_witness :
    condRenomear ⟨"b.pdf", "b.pdf", some "sem marcadores", 9, true, ""⟩ = false ∧
    (registroDe ⟨"b.pdf", "b.pdf", some "sem marcadores", 9, true, ""⟩).novo_nome = "-" ∧
    (registroDe ⟨"b.pdf", "b.pdf", some "sem marcadores", 9, true, ""⟩).status
      = "⚠️ Informações não encontradas" ∧
    ((extrair_info_comprovante ⟨"b.pdf", "b.pdf", some "sem marcadores", 9, true, ""⟩).1
        = none →
      (registroDe ⟨"b.pdf", "b.pdf", some "sem marcadores", 9, true, ""⟩).data = "N/A") ∧
    ((extrair_info_comprovante ⟨"b.pdf", "b.pdf", some "sem marcadores", 9, true, ""⟩).2.1
        = none →
      (registroDe ⟨"b.pdf", "b.pdf", some "sem marcadores", 9, true, ""⟩).destinatario
        = "N/A") ∧
    (processar_zip
        ([⟨"a.pdf", "a.pdf",
            some "Boleto\nData de débito: 19/12/2025\nNome do beneficiário: Jane\nx",
            1, true, ""⟩]
          ++ (⟨"b.pdf", "b.pdf", some "sem marcadores", 9, true, ""⟩ : PdfFile) :: [])).2
      = List.map registroDe
          [⟨"a.pdf", "a.pdf",
            some "Boleto\nData de débito: 19/12/2025\nNome do beneficiário: Jane\nx",
            1, true, ""⟩]
        ++ registroDe ⟨"b.pdf", "b.pdf", some "sem marcadores", 9, true, ""⟩
          :: List.map registroDe [] ∧
    ∀ e ∈ (processar_zip
        ([⟨"a.pdf", "a.pdf",
            some "Boleto\nData de débito: 19/12/2025\nNome do beneficiário: Jane\nx",
            1, true, ""⟩]
          ++ (⟨"b.pdf", "b.pdf", some "sem marcadores", 9, true, ""⟩ : PdfFile) :: [])).1.getD [],
      (∃ g ∈ [⟨"a.pdf", "a.pdf",
            some "Boleto\nData de débito: 19/12/2025\nNome do beneficiário: Jane\nx",
            1, true, ""⟩] ++ ([] : List PdfFile),
        condRenomear g = true ∧ g.renameOk = true ∧ e.1 = novoNomeDe g) ∧
      e.2 ≠ some (9 : Nat) :=
  campos_ausentes
    [⟨"a.pdf", "a.pdf",
      some "Boleto\nData de débito: 19/12/2025\nNome do beneficiário: Jane\nx", 1, true, ""⟩]
    [] ⟨"b.pdf", "b.pdf", some "sem marcadores", 9, true, ""⟩
    (Or.inl (by decide)) (by decide) (by decide) (by decide)

/-! ## The filename-collision claim -/

/-- A Boleto text resolving to date `19-12-2025` and payee `Jane Doe`. -/
def boletoJane : String :=
  "Boleto\nData de débito: 19/12/2025\nNome do beneficiário: Jane Doe\nValor: 100"

/-- First colliding file, contents `1`. -/
def pdfJane1 : PdfFile := ⟨"a.pdf", "a.pdf", some boletoJane, 1, true, ""⟩

/-- Second colliding file, contents `2`. -/
def pdfJane2 : PdfFile := ⟨"b.pdf", "b.pdf", some boletoJane, 2, true, ""⟩

/-- C1 counterexample: two distinct files that both resolve to
`(19-12-2025, Jane Doe)` produce an output archive with TWO entries named
`19-12-2025 - Jane Doe.pdf` — the packing loop writes the shared renamed path
once per source file — so the archive does not contain exactly one entry of
that name. -/
theorem colisao_counterexample :
    ((processar_zip [pdfJane1, pdfJane2]).1.getD []).countP
        (fun e => e.1 == "19-12-2025 - Jane Doe.pdf") = 2 ∧
    ¬ ((processar_zip [pdfJane1, pdfJane2]).1.getD []).countP
        (fun e => e.1 == "19-12-2025 - Jane Doe.pdf") = 1 := by
  decide

/-- C1 amended: two distinct files that both extract to the same truthy
`(date, payee)` pair produce an output archive whose entry list is exactly two
entries, both named `"{date} - {sanitizedPayee}.pdf"` and both carrying the
contents of the last-processed file — the second rename silently overwrote the
first file's contents, and the duplicate entries are byte-identical, so
extracting the archive yields a single file with the last-processed
contents. -/
theorem colisao_ultima_processada_vence (f1 f2 : PdfFile) (d n : String)
    (t1 t2 : Option String)
    (h1 : extrair_info_comprovante f1 = (some d, some n, t1))
    (h2 : extrair_info_comprovante f2 = (some d, some n, t2))
    (hd : d ≠ "") (hn : n ≠ "")
    (hok1 : f1.renameOk = true) (hok2 : f2.renameOk = true)
    (hp : f1.caminho ≠ f2.caminho)
    (hnm2 : d ++ " - " ++ limpar_nome_arquivo n ++ ".pdf" ≠ f2.caminho) :
    (processar_zip [f1, f2]).1
      = some [(d ++ " - " ++ limpar_nome_arquivo n ++ ".pdf", some f2.conteudo),
              (d ++ " - " ++ limpar_nome_arquivo n ++ ".pdf", some f2.conteudo)] := by
  have hc1 : condRenomear f1 = true := by simp [condRenomear, h1, strTruthy, hd, hn]
  have hc2 : condRenomear f2 = true := by simp [condRenomear, h2, strTruthy, hd, hn]
  have hnm1 : novoNomeDe f1 = d ++ " - " ++ limpar_nome_arquivo n ++ ".pdf" := by
    simp [novoNomeDe, h1]
  have hnm2' : novoNomeDe f2 = d ++ " - " ++ limpar_nome_arquivo n ++ ".pdf" := by
    simp [novoNomeDe, h2]
  set nm := d ++ " - " ++ limpar_nome_arquivo n ++ ".pdf" with hnmdef
  have e2 : (f1.caminho != f1.caminho) = false := by simp
  have e3 : (f2.caminho != f1.caminho) = true := bne_iff_ne.mpr (Ne.symm hp)
  have e4 : (f2.caminho != nm) = true := bne_iff_ne.mpr (Ne.symm hnm2)
  have e5 : (nm == f2.caminho) = false := beq_eq_false_iff_ne.mpr hnm2
  have e7 : (nm != f2.caminho) = true := bne_iff_ne.mpr hnm2
  have e8 : (nm != nm) = false := by simp
  have e9 : (f2.caminho != f2.caminho) = false := by simp
  simp only [processar_zip, List.isEmpty_cons, Bool.false_eq_true, if_false,
    List.foldl_cons, List.foldl_nil, List.map_cons, List.map_nil]
  simp only [processarArquivo, hc1, hc2, hok1, hok2, if_true, hnm1, hnm2']
  simp only [fsRename, List.find?_cons, beq_self_eq_true, e5]
  simp only [List.filter_cons, List.filter_nil, e2, e3, e4, e7, e8, e9,
    Bool.and_true, Bool.true_and, Bool.and_false, Bool.false_and,
    Bool.false_eq_true, if_false, if_true]
  simp [List.find?_cons, beq_self_eq_true]

/-- Witness for the amended C1 at the two concrete colliding files. -/
theorem colisao_ultima_processada_vence_witness :
    (processar_zip [pdfJane1, pdfJane2]).1
      = some [("19-12-2025" ++ " - " ++ limpar_nome_arquivo "Jane Doe" ++ ".pdf", some 2),
              ("19-12-2025" ++ " - " ++ limpar_nome_arquivo "Jane Doe" ++ ".pdf", some 2)] :=
  colisao_ultima_processada_vence pdfJane1 pdfJane2 "19-12-2025" "Jane Doe"
    (some "Boleto") (some "Boleto") (by decide) (by decide) (by decide) (by decide)
    rfl rfl (by decide) (by decide)

end ComprovanteFinanceiro
